import Mathlib

/-!
Verification development for the compose-cat CLI wrapper (src/src/index.ts).

The TypeScript source is shallowly embedded: JavaScript string-keyed objects
(`process.env`, the merged dotenv object) become functions `String → Option String`,
file-system access becomes an explicit record of pure functions, and the
orchestration of child processes (hooks, compose invocations) becomes a pure
function from per-call exit codes to an event trace plus a final exit status.
Source identifiers are kept wherever Lean allows; `pfx` abbreviates the source
variable spelled with the full word to satisfy local naming conventions.
-/

namespace ComposeCat

/-- JavaScript string map (`Record<string, string>`), modelled extensionally:
a key is present iff the function returns `some`. -/
def Env : Type := String → Option String

/-- `obj[key] = val` on a JavaScript object. -/
def setKey (m : Env) (key val : String) : Env :=
  fun k => if k = key then some val else m k

/-! ### JavaScript string primitives

The JavaScript string operations the source uses (`split`, `trim`,
truthiness of a string, `startsWith`) are modelled structurally over the
character list of the string, matching their JavaScript semantics. -/

/-- `s.split(sep)` on the character list: every occurrence of the separator
splits, empty segments included (`"".split(",")` is `[""]`). -/
def splitCharList (sep : Char) : List Char → List (List Char)
  | [] => [[]]
  | c :: cs =>
    let r := splitCharList sep cs
    if c = sep then [] :: r
    else
      match r with
      | [] => [[c]]
      | g :: gs => (c :: g) :: gs

/-- JavaScript `s.split(sep)` for a one-character separator. -/
def jsSplit (s : String) (sep : Char) : List String :=
  (splitCharList sep s.data).map String.mk

/-- JavaScript `s.trim()`: strip leading and trailing whitespace. -/
def jsTrim (s : String) : String :=
  String.mk (((s.data.dropWhile Char.isWhitespace).reverse.dropWhile
    Char.isWhitespace).reverse)

/-- JavaScript falsiness of a string: `!s` is true exactly for `""`. -/
def jsIsEmpty (s : String) : Bool :=
  s.data.isEmpty

/-- JavaScript `s.startsWith(p)`. -/
def strStartsWith (s p : String) : Bool :=
  p.data.isPrefixOf s.data

/-- Layering of two optional values: the left (later) layer wins when it is
defined, otherwise the right (earlier) layer shows through. -/
def overlay (a b : Option String) : Option String :=
  match a with
  | some v => some v
  | none => b

/-- Last value paired with `k` in an association list (later entries override
earlier ones, matching both dotenv's parse of duplicate keys and sequential
object assignment). -/
def lookupLast : List (String × String) → String → Option String
  | [], _ => none
  | kv :: l, k => overlay (lookupLast l k) (if kv.1 = k then some kv.2 else none)

/-- `populate(base, parsed, { override: true })` from the dotenv library:
every parsed pair is assigned into `base`, later pairs overriding. -/
def populateOverride (base : Env) (parsed : List (String × String)) : Env :=
  parsed.foldl (fun m kv => setKey m kv.1 kv.2) base

/-- File-system view used by `detectDotenvFilesAndEnv` and `discoverHooks`:
`existsF` is `existsSync`; `readF` is `readFileSync` composed with dotenv's
`parse` (`none` models a read that throws). -/
structure FS where
  existsF : String → Bool
  readF : String → Option (List (String × String))

/-- `path.resolve(cwd, name)` for a relative `name` under a normalized `cwd`. -/
def resolvePath (cwd name : String) : String := cwd ++ "/" ++ name

/-- `mergeEnv(base, file)` (src/src/index.ts:47): reads and parses the file and
populates `base` with override; a read failure leaves `base` unchanged (the
exceptional `return {}` is dead, since every caller drops the return value and
relies on mutation of `base`). -/
def mergeEnv (readF : String → Option (List (String × String))) (base : Env)
    (file : String) : Env :=
  match readF file with
  | some content => populateOverride base content
  | none => base

/-- One iteration of the outer loop of `normalizeProfiles`
(src/src/index.ts:66-72): a falsy value is skipped, otherwise its
comma-separated parts are trimmed and the non-empty results appended. -/
def normalizeProfilesStep (out : List String) (v : String) : List String :=
  if jsIsEmpty v then out
  else out ++ ((jsSplit v ',').filterMap (fun part =>
    if jsIsEmpty (jsTrim part) then none else some (jsTrim part)))

/-- `normalizeProfiles` (src/src/index.ts:62): each supplied value is split on
commas, the parts trimmed, empties dropped.  Duplicates are kept.  The
`string` (non-array) overload is the one-element list. -/
def normalizeProfiles (values : List String) : List String :=
  values.foldl normalizeProfilesStep []

/-- Result record of `detectDotenvFilesAndEnv`. -/
structure DetectResult where
  envFiles : List String
  mergedEnv : Env
  profiles : List String

/-- `detectDotenvFilesAndEnv` (src/src/index.ts:80).  `dotenvPfx` is the value
`getDotenvPrefix()` returns at the call; `processEnv` is the deep copy of
`process.env` that seeds the merge target.  Base files are merged first, then
per-profile files in profile order, non-`.local` before `.local`, later files
overriding earlier keys. -/
def detectDotenvFilesAndEnv (fs : FS) (cwd : String) (processEnv : Env)
    (dotenvPfx : String) (profileFromCli : List String)
    (disableProfileBasedDotenv : Bool) : DetectResult :=
  let baseDotenvFiles :=
    [resolvePath cwd dotenvPfx, resolvePath cwd (dotenvPfx ++ ".local")].filter fs.existsF
  let baseMerged := baseDotenvFiles.foldl (mergeEnv fs.readF) processEnv
  let profiles := normalizeProfiles profileFromCli
  let profileDotenvFiles :=
    if disableProfileBasedDotenv then []
    else profiles.flatMap (fun p =>
      [resolvePath cwd (dotenvPfx ++ "." ++ p),
       resolvePath cwd (dotenvPfx ++ "." ++ p ++ ".local")])
  let profileDotenvFiles := profileDotenvFiles.filter fs.existsF
  let allDotenvFiles := baseDotenvFiles ++ profileDotenvFiles
  let merged := profileDotenvFiles.foldl (mergeEnv fs.readF) baseMerged
  { envFiles := allDotenvFiles, mergedEnv := merged, profiles := profiles }

/-- The contribution of a single dotenv file to key `k`: its last definition
of `k`, or nothing when the file is unreadable. -/
def fileValue (readF : String → Option (List (String × String))) (f k : String) :
    Option String :=
  match readF f with
  | none => none
  | some content => lookupLast content k

/-- Value of the last file in `files` (scanned left to right) that defines `k`,
skipping unreadable files — the precedence the specification states for the
merged environment. -/
def lastFileValue (readF : String → Option (List (String × String))) :
    List String → String → Option String
  | [], _ => none
  | f :: fs, k => overlay (lastFileValue readF fs k) (fileValue readF f k)

/-! ### Configurable prefixes and the `prepare` ordering (src/src/index.ts:18-26, 373-381) -/

/-- JavaScript `a || b` on an optional string: `undefined` and the empty
string are falsy. -/
def jsOrOpt (a : Option String) (b : String) : String :=
  match a with
  | some s => if jsIsEmpty s then b else s
  | none => b

/-- Module-level mutable option state (src/src/index.ts:18-19):
`prefixFromOptions` and `dotenvPrefixFromOptions`. -/
structure OptionState where
  pfxFromOptions : Option String
  dotenvPfxFromOptions : Option String

/-- `getDotenvPrefix()` (src/src/index.ts:24): CLI override, else the
`CMPCAT_ARG_DOTENV_PREFIX` environment value, else `".env"`. -/
def getDotenvPrefixOf (st : OptionState) (envDotenvPfx : Option String) : String :=
  jsOrOpt st.dotenvPfxFromOptions (jsOrOpt envDotenvPfx ".env")

/-- The slice of `prepare` (src/src/index.ts:373-381) that fixes which dotenv
file-name root detection uses: `detectDotenvFilesAndEnv` runs on line 376 and
evaluates `getDotenvPrefix()` against the module state as it is on entry;
only afterwards (line 379) does `prepare` store `options.cmpDotenvPrefix`
into `dotenvPrefixFromOptions`. -/
structure PrepareDotenvFlow where
  rootUsedForDetection : String
  stateAfter : OptionState

/-- Sequencing of `prepare` around `detectDotenvFilesAndEnv`: the dotenv
file-name root is read before the CLI options are written back. -/
def prepareDotenvFlow (st0 : OptionState) (envDotenvPfx : Option String)
    (optsCmpPfx optsCmpDotenvPfx : Option String) : PrepareDotenvFlow :=
  let used := getDotenvPrefixOf st0 envDotenvPfx
  { rootUsedForDetection := used,
    stateAfter := { pfxFromOptions := optsCmpPfx, dotenvPfxFromOptions := optsCmpDotenvPfx } }

/-! ### Binary resolution (src/src/index.ts:136-155, 184-192, 386-402) -/

/-- `defaultBins` (src/src/index.ts:13). -/
def defaultBins : List String :=
  ["docker compose", "podman compose", "docker-compose", "podman-compose"]

/-- `parseCsv` (src/src/index.ts:136): split on commas, trim, drop empties;
`undefined`/empty input yields the empty list. -/
def parseCsv (value : Option String) : List String :=
  match value with
  | none => []
  | some v =>
    if jsIsEmpty v then []
    else ((jsSplit v ',').map jsTrim).filter (fun s => !jsIsEmpty s)

/-- `detectComposeBin` (src/src/index.ts:144): walk the candidates in order
and return the first whose probe (`spawnSync(candidate + " version")`)
exits with status 0; `probe c = true` models a zero exit status. -/
def detectComposeBin (probe : String → Bool) : List String → Option String
  | [] => none
  | c :: rest => if probe c then some c else detectComposeBin probe rest

/-- The single candidate list `prepare` scans (src/src/index.ts:390-402): the
user `--cmp-bin` list when non-empty, else the environment-declared list when
non-empty, else the built-in defaults. -/
def selectedBins (userBins envBins : List String) : List String :=
  if userBins.length > 0 then userBins
  else if envBins.length > 0 then envBins
  else defaultBins

/-- Binary-resolution part of `prepare` (src/src/index.ts:386-402) together
with `checkBinOrThrow` (src/src/index.ts:184): on exhaustion the attempted
candidate list is reported, `process.exitCode` is set to 1 and `prepare`
returns `undefined`. -/
def resolveComposeBin (probe : String → Bool) (userBins envBins : List String) :
    Except (List String) String :=
  if userBins.length > 0 then
    match detectComposeBin probe userBins with
    | some b => .ok b
    | none => .error userBins
  else if envBins.length > 0 then
    match detectComposeBin probe envBins with
    | some b => .ok b
    | none => .error envBins
  else
    match detectComposeBin probe defaultBins with
    | some b => .ok b
    | none => .error defaultBins

/-! ### Command builder (src/src/index.ts:198-216) -/

/-- `buildComposeArgs` (src/src/index.ts:198): one `--profile` flag per active
profile in order, then one `--env-file` flag per merged dotenv file in merge
order, then the passthrough arguments verbatim.  The `mergedEnv` parameter is
accepted and never read, exactly as in the source. -/
def buildComposeArgs (envFiles : List String) (mergedEnv : Env)
    (profiles : List String) (extraArgs : List String) : List String :=
  (profiles.flatMap (fun p => ["--profile", p]))
    ++ (envFiles.flatMap (fun f => ["--env-file", f]))
    ++ extraArgs

/-! ### Profile bookkeeping keys (src/src/index.ts:218-248) -/

/-- The pair of environments `setProfileEnvVariables` mutates:
`process.env` and the merged dotenv object. -/
structure ProcAndMerged where
  procEnv : Env
  mergedEnv : Env

/-- The `profiles.forEach((profile, index) => ...)` loop
(src/src/index.ts:243-247): starting at `index`, each profile is written
under the 1-based key `profileKeyPfx ++ toString (index + 1)` into both
environments. -/
def writeIndexedProfiles (profileKeyPfx : String) :
    Nat → List String → ProcAndMerged → ProcAndMerged
  | _, [], st => st
  | index, p :: rest, st =>
    let key := profileKeyPfx ++ toString (index + 1)
    writeIndexedProfiles profileKeyPfx (index + 1) rest
      { procEnv := setKey st.procEnv key p, mergedEnv := setKey st.mergedEnv key p }

/-- The association list of writes `writeIndexedProfiles` performs, used to
state what the loop leaves behind. -/
def indexedProfileWrites (profileKeyPfx : String) :
    Nat → List String → List (String × String)
  | _, [] => []
  | index, p :: rest =>
    (profileKeyPfx ++ toString (index + 1), p) :: indexedProfileWrites profileKeyPfx (index + 1) rest

/-- `setProfileEnvVariables` (src/src/index.ts:218): first every key of both
environments starting with `pfx ++ "PROFILE_"` is deleted; with no active
profiles the joined key `pfx ++ "PROFILES"` is deleted too and nothing more
happens; otherwise the joined key is set to the comma-joined list and each
profile is written under its 1-based indexed key. -/
def setProfileEnvVariables (profiles : List String) (st : ProcAndMerged)
    (pfx : String) : ProcAndMerged :=
  let profileKeyPfx := pfx ++ "PROFILE_"
  let profilesKey := pfx ++ "PROFILES"
  let procEnv : Env := fun k => if strStartsWith k profileKeyPfx then none else st.procEnv k
  let mergedEnv : Env := fun k => if strStartsWith k profileKeyPfx then none else st.mergedEnv k
  if profiles.length = 0 then
    { procEnv := fun k => if k = profilesKey then none else procEnv k,
      mergedEnv := fun k => if k = profilesKey then none else mergedEnv k }
  else
    let joinedProfiles := String.intercalate "," profiles
    let procEnv := setKey procEnv profilesKey joinedProfiles
    let mergedEnv := setKey mergedEnv profilesKey joinedProfiles
    writeIndexedProfiles profileKeyPfx 0 profiles
      { procEnv := procEnv, mergedEnv := mergedEnv }

/-! ### Hook discovery (src/src/index.ts:250-342) -/

/-- `HookDef` (src/src/index.ts:251).  `kind` is `true` for a command-scoped
discovery pass. -/
structure HookDef where
  kindIsCommand : Bool
  additionalHookName : Option String
  stage : String
  platform : String
  binary : Option String
  ext : String
  file : String
deriving DecidableEq

/-- `currentPlatform` (src/src/index.ts:261): accepted aliases of the runtime
platform. -/
def currentPlatform (osPlatform : String) : List String :=
  if osPlatform = "win32" then ["win32", "windows"]
  else if osPlatform = "darwin" then ["darwin", "macos"]
  else if osPlatform = "linux" then ["linux"]
  else [osPlatform]

/-- The regular-expression dispatch of `discoverHooks`
(src/src/index.ts:285-310) on one directory entry, after splitting the name
on dots.  Returns `(matchedSecondShape, stageSegment, platformAndBinary?,
ext)`.  Each segment must be non-empty (`[^.]+`).  With a command scope the
two shapes carry an extra command segment; that segment is captured by the
source regex but never read back, so it is matched for shape only here.  The
out-of-range third pattern slot in the source (`filePatterns[2]`, i.e.
`name.match(undefined)`) matches every string with no capture groups, so its
entries always fail the stage comparison and `thirdHooks` stays empty. -/
def matchHookName (isCmd : Bool) (name : String) :
    Option (Bool × String × Option String × String) :=
  match jsSplit name '.' with
  | ["cmp", s, e] =>
    if !isCmd && !jsIsEmpty s && !jsIsEmpty e then some (false, s, none, e) else none
  | ["cmp", s, x, e] =>
    if jsIsEmpty s || jsIsEmpty x || jsIsEmpty e then none
    else if isCmd then some (false, s, none, e)
    else some (true, s, some x, e)
  | ["cmp", s, c, pnb, e] =>
    if isCmd && !jsIsEmpty s && !jsIsEmpty c && !jsIsEmpty pnb && !jsIsEmpty e then
      some (true, s, some pnb, e)
    else none
  | _ => none

/-- Filtering and construction step of `discoverHooks`
(src/src/index.ts:299-338) for one entry, threading the pair
`(firstHooks, secondHooks)`. -/
def discoverHooksStep (platforms : List String) (isCmd : Bool) (stage : String)
    (cmd : Option String) (cwd : String) (acc : List HookDef × List HookDef)
    (name : String) : List HookDef × List HookDef :=
  if !strStartsWith name "cmp." then acc
  else
    match matchHookName isCmd name with
    | none => acc
    | some (secondShape, s, platformAndBinary, ext) =>
      let pnbArr := match platformAndBinary with
        | some str => jsSplit str '+'
        | none => []
      if s ≠ stage then acc
      else if pnbArr.length > 0 && !jsIsEmpty (pnbArr.headD "")
          && !(platforms.contains (pnbArr.headD "")) then acc
      else
        let binary := if pnbArr.length > 1 && !jsIsEmpty (pnbArr.getD 1 "")
          then some (pnbArr.getD 1 "") else none
        let h : HookDef :=
          { kindIsCommand := isCmd, additionalHookName := cmd, stage := stage,
            platform := platforms.headD "", binary := binary, ext := ext,
            file := resolvePath cwd name }
        if secondShape then (acc.1, acc.2 ++ [h]) else (acc.1 ++ [h], acc.2)

/-- `discoverHooks` (src/src/index.ts:273): scan the directory entries in
order, classify each into the unadorned-shape group or the
platform/binary-constrained group, and return the first group before the
second, each preserving scan order.  `cmd` is command-scope name from
`--cmp-hook` (`isCmd` is JavaScript truthiness of it). -/
def discoverHooks (osPlatform cwd : String) (entries : List String)
    (stage : String) (cmd : Option String) : List HookDef :=
  let platforms := currentPlatform osPlatform
  let isCmd := match cmd with
    | some c => !jsIsEmpty c
    | none => false
  let groups := entries.foldl (discoverHooksStep platforms isCmd stage cmd cwd) ([], [])
  groups.1 ++ groups.2

/-! ### Command orchestration (src/src/index.ts:461-612)

Each action is embedded as a pure function from the exit codes of its child
processes to the ordered trace of child-process events it performs plus the
final process exit status.  `runHooks` (src/src/index.ts:346) is the unit of
the trace: one event per `runHooks` call, whose aggregate exit code is given
by the `hookCode` oracle; one event per `runCompose` call, whose exit code is
given by `composeCode` keyed on the extra arguments appended after the common
argument vector.  The event vocabulary also contains the host-side recursive
store-directory deletion that the repository README documents for the clean
commands, so its presence or absence in a trace is expressible. -/

/-- One child-process-level event of an action. -/
inductive Ev where
  | hookRun (stage : String) (cmd : Option String)
  | composeRun (extra : List String)
  | storeDelete
deriving DecidableEq

/-- Exit codes of the child processes, fixed per call site.  A process killed
by a signal is already mapped to a nonzero code by `runShellCommand`
(src/src/index.ts:159-170). -/
structure Outcomes where
  hookCode : String → Option String → Nat
  composeCode : List String → Nat

/-- The `for (const h of hooks) { code = await runHooks(stage, h, ...); if
(code !== 0) ... }` loops: events performed and the first nonzero code (or 0). -/
def scopedHooksLoop (stage : String) (o : Outcomes) : List String → List Ev × Nat
  | [] => ([], 0)
  | h :: rest =>
    let c := o.hookCode stage (some h)
    if c ≠ 0 then ([Ev.hookRun stage (some h)], c)
    else
      let r := scopedHooksLoop stage o rest
      (Ev.hookRun stage (some h) :: r.1, r.2)

/-- The default command action (src/src/index.ts:461-486): global pre-hooks,
scoped pre-hooks, the single compose invocation, scoped post-hooks (each
short-circuiting on a nonzero code with that code as exit status), then the
global post-hooks; the final status is the global post-hook code when
nonzero, otherwise the compose code. -/
def simpleCommandRun (hooks : List String) (o : Outcomes) : List Ev × Nat :=
  let c0 := o.hookCode "pre" none
  if c0 ≠ 0 then ([Ev.hookRun "pre" none], c0)
  else
    let pre := scopedHooksLoop "pre" o hooks
    if pre.2 ≠ 0 then (Ev.hookRun "pre" none :: pre.1, pre.2)
    else
      let code := o.composeCode []
      let post := scopedHooksLoop "post" o hooks
      if post.2 ≠ 0 then
        (Ev.hookRun "pre" none :: pre.1 ++ [Ev.composeRun []] ++ post.1, post.2)
      else
        let postCode := o.hookCode "post" none
        (Ev.hookRun "pre" none :: pre.1 ++ [Ev.composeRun []] ++ post.1
          ++ [Ev.hookRun "post" none],
         if postCode ≠ 0 then postCode else code)

/-- Common shape of the three `cmp-clean*` actions
(src/src/index.ts:491-526, 532-569, 575-612): the three bodies are identical
except for the extra arguments of the second compose step (`step2Args`), with
`cmp-clean-i-local` and `cmp-clean-i-all` holding a duplicated (dead) exit
check between the steps.  Every nonzero code — from a pre-hook, a delegate
step, a scoped post-hook or the global post-hooks — triggers an immediate
`process.exit` with that code, skipping everything after it. -/
def cleanCommandRun (step2Args : List String) (hooks : List String)
    (o : Outcomes) : List Ev × Nat :=
  let c0 := o.hookCode "pre" none
  if c0 ≠ 0 then ([Ev.hookRun "pre" none], c0)
  else
    let pre := scopedHooksLoop "pre" o hooks
    if pre.2 ≠ 0 then (Ev.hookRun "pre" none :: pre.1, pre.2)
    else
      let code1 := o.composeCode ["rm", "-fsv"]
      if code1 ≠ 0 then
        (Ev.hookRun "pre" none :: pre.1 ++ [Ev.composeRun ["rm", "-fsv"]], code1)
      else
        let code2 := o.composeCode step2Args
        if code2 ≠ 0 then
          (Ev.hookRun "pre" none :: pre.1
            ++ [Ev.composeRun ["rm", "-fsv"], Ev.composeRun step2Args], code2)
        else
          let post := scopedHooksLoop "post" o hooks
          if post.2 ≠ 0 then
            (Ev.hookRun "pre" none :: pre.1
              ++ [Ev.composeRun ["rm", "-fsv"], Ev.composeRun step2Args] ++ post.1, post.2)
          else
            let postCode := o.hookCode "post" none
            (Ev.hookRun "pre" none :: pre.1
              ++ [Ev.composeRun ["rm", "-fsv"], Ev.composeRun step2Args] ++ post.1
              ++ [Ev.hookRun "post" none],
             if postCode ≠ 0 then postCode else 0)

/-- `cmp-clean` (src/src/index.ts:488-526). -/
def cmpCleanRun (hooks : List String) (o : Outcomes) : List Ev × Nat :=
  cleanCommandRun ["down", "--volumes"] hooks o

/-- `cmp-clean-i-local` (src/src/index.ts:528-569). -/
def cmpCleanILocalRun (hooks : List String) (o : Outcomes) : List Ev × Nat :=
  cleanCommandRun ["down", "--rmi", "local", "--volumes"] hooks o

/-- `cmp-clean-i-all` (src/src/index.ts:571-612). -/
def cmpCleanIAllRun (hooks : List String) (o : Outcomes) : List Ev × Nat :=
  cleanCommandRun ["down", "--rmi", "all", "--volumes"] hooks o

/-- The default command action including `prepare`'s binary resolution
(src/src/index.ts:461-464): when no candidate of the selected list passes the
probe, `prepare` returns `undefined` with `process.exitCode = 1` and the
action returns before any hook or compose invocation. -/
def simpleAction (probe : String → Bool) (userBins : List String)
    (envBinValue : Option String) (hooks : List String) (o : Outcomes) :
    List Ev × Nat :=
  match resolveComposeBin probe userBins (parseCsv envBinValue) with
  | .error _ => ([], 1)
  | .ok _ => simpleCommandRun hooks o

/-- `cmp-clean` including `prepare`'s binary resolution
(src/src/index.ts:491-494). -/
def cmpCleanAction (probe : String → Bool) (userBins : List String)
    (envBinValue : Option String) (hooks : List String) (o : Outcomes) :
    List Ev × Nat :=
  match resolveComposeBin probe userBins (parseCsv envBinValue) with
  | .error _ => ([], 1)
  | .ok _ => cmpCleanRun hooks o

/-! ### Specification-side normalization -/

/-- Profile normalization as the amended claim words it: every supplied value
is split on commas, the parts trimmed, entries empty after trimming dropped
silently, and all remaining occurrences — duplicates included — kept in
order. -/
def normalizeProfilesSpec (values : List String) : List String :=
  values.flatMap (fun v => ((jsSplit v ',').map jsTrim).filter (fun s => !jsIsEmpty s))

/-! ### Lemmas about layered merging -/

theorem overlay_none_right (a : Option String) : overlay a none = a := by
  cases a <;> rfl

theorem overlay_assoc (a b c : Option String) :
    overlay a (overlay b c) = overlay (overlay a b) c := by
  cases a <;> cases b <;> rfl

theorem populateOverride_apply (content : List (String × String)) (base : Env) (k : String) :
    populateOverride base content k = overlay (lookupLast content k) (base k) := by
  induction content generalizing base with
  | nil => rfl
  | cons kv l ih =>
    show populateOverride (setKey base kv.1 kv.2) l k = _
    rw [ih]
    show _ = overlay (overlay (lookupLast l k) (if kv.1 = k then some kv.2 else none)) (base k)
    rw [← overlay_assoc]
    congr 1
    by_cases h : k = kv.1
    · simp [setKey, h, overlay]
    · have h2 : ¬(kv.1 = k) := fun he => h he.symm
      simp [setKey, h, h2, overlay]

theorem mergeEnv_apply (readF : String → Option (List (String × String)))
    (base : Env) (f k : String) :
    mergeEnv readF base f k = overlay (fileValue readF f k) (base k) := by
  unfold mergeEnv fileValue
  cases readF f with
  | none => rfl
  | some content => exact populateOverride_apply content base k

theorem mergeEnv_foldl_apply (readF : String → Option (List (String × String)))
    (files : List String) (base : Env) (k : String) :
    (files.foldl (mergeEnv readF) base) k
      = overlay (lastFileValue readF files k) (base k) := by
  induction files generalizing base with
  | nil => rfl
  | cons f fs ih =>
    show (fs.foldl (mergeEnv readF) (mergeEnv readF base f)) k = _
    rw [ih, mergeEnv_apply, overlay_assoc]
    rfl

/-! ### Lemmas about profile bookkeeping -/

theorem lookupLast_isSome_iff (l : List (String × String)) (k : String) :
    (lookupLast l k).isSome = true ↔ k ∈ l.map Prod.fst := by
  induction l with
  | nil => simp [lookupLast]
  | cons kv l ih =>
    by_cases h : kv.1 = k
    · cases hl : lookupLast l k <;>
        simp [lookupLast, hl, overlay, h, eq_comm, ih]
    · have h2 : ¬(k = kv.1) := fun he => h he.symm
      cases hl : lookupLast l k <;>
        simp [lookupLast, hl, overlay, h, h2, ← ih]

theorem writeIndexedProfiles_eq (profileKeyPfx : String) (l : List String)
    (i : Nat) (st : ProcAndMerged) :
    writeIndexedProfiles profileKeyPfx i l st =
      { procEnv := populateOverride st.procEnv (indexedProfileWrites profileKeyPfx i l),
        mergedEnv := populateOverride st.mergedEnv (indexedProfileWrites profileKeyPfx i l) } := by
  induction l generalizing i st with
  | nil => rfl
  | cons p rest ih =>
    show writeIndexedProfiles profileKeyPfx (i + 1) rest _ = _
    rw [ih]
    rfl

theorem mem_keys_indexedProfileWrites (profileKeyPfx : String) (l : List String)
    (i : Nat) (k : String)
    (h : k ∈ (indexedProfileWrites profileKeyPfx i l).map Prod.fst) :
    ∃ j : Nat, k = profileKeyPfx ++ toString (j + 1) := by
  induction l generalizing i with
  | nil => simp [indexedProfileWrites] at h
  | cons p rest ih =>
    simp only [indexedProfileWrites, List.map_cons, List.mem_cons] at h
    cases h with
    | inl h => exact ⟨i, h⟩
    | inr h => exact ih (i + 1) h

theorem profileKey_ne_profilesKey (pfx t : String) :
    (pfx ++ "PROFILE_") ++ t ≠ pfx ++ "PROFILES" := by
  intro h
  have hd := congrArg String.data h
  simp only [String.data_append] at hd
  rw [List.append_assoc] at hd
  have h2 := List.append_cancel_left hd
  simp at h2

/-- The single shared description of what `setProfileEnvVariables` leaves at a
key of the indexed-profile family: both environments map it to the last
indexed write for it, irrespective of what they held before. -/
theorem setProfileEnvVariables_indexed (pfx : String) (st : ProcAndMerged)
    (profiles : List String) (k : String)
    (hk : strStartsWith k (pfx ++ "PROFILE_") = true)
    (hne : k ≠ pfx ++ "PROFILES") :
    (setProfileEnvVariables profiles st pfx).mergedEnv k
        = lookupLast (indexedProfileWrites (pfx ++ "PROFILE_") 0 profiles) k
      ∧ (setProfileEnvVariables profiles st pfx).procEnv k
        = lookupLast (indexedProfileWrites (pfx ++ "PROFILE_") 0 profiles) k := by
  unfold setProfileEnvVariables
  by_cases hlen : profiles.length = 0
  · have hp : profiles = [] := List.length_eq_zero.mp hlen
    subst hp
    simp [hlen, hk, hne, indexedProfileWrites, lookupLast]
  · simp only [hlen, if_false]
    rw [writeIndexedProfiles_eq]
    constructor <;>
    · simp only [populateOverride_apply, setKey, hne, if_false, hk, if_true]
      exact overlay_none_right _

/-- With all active profiles present, the joined-profile-list key holds the
comma-joined list of every active profile, because no indexed write can
collide with it. -/
theorem setProfileEnvVariables_profilesKey (pfx : String) (st : ProcAndMerged)
    (profiles : List String) (hnz : profiles ≠ []) :
    (setProfileEnvVariables profiles st pfx).mergedEnv (pfx ++ "PROFILES")
      = some (String.intercalate "," profiles) := by
  unfold setProfileEnvVariables
  have hlen : ¬profiles.length = 0 := by
    simpa [List.length_eq_zero] using hnz
  simp only [hlen, if_false]
  rw [writeIndexedProfiles_eq]
  show populateOverride _ _ _ = _
  rw [populateOverride_apply]
  have hnone : lookupLast (indexedProfileWrites (pfx ++ "PROFILE_") 0 profiles)
      (pfx ++ "PROFILES") = none := by
    cases hl : lookupLast (indexedProfileWrites (pfx ++ "PROFILE_") 0 profiles)
        (pfx ++ "PROFILES") with
    | none => rfl
    | some v =>
      have hs : (lookupLast (indexedProfileWrites (pfx ++ "PROFILE_") 0 profiles)
          (pfx ++ "PROFILES")).isSome = true := by rw [hl]; rfl
      have hmem := (lookupLast_isSome_iff _ _).mp hs
      obtain ⟨j, hj⟩ := mem_keys_indexedProfileWrites _ _ _ _ hmem
      exact absurd hj.symm (profileKey_ne_profilesKey pfx (toString (j + 1)))
  rw [hnone]
  simp [overlay, setKey]

theorem normalizeProfiles_foldl (values : List String) (acc : List String) :
    values.foldl normalizeProfilesStep acc = acc ++ normalizeProfilesSpec values := by
  induction values generalizing acc with
  | nil => simp [normalizeProfilesSpec]
  | cons v rest ih =>
    rw [List.foldl_cons, ih]
    have hpart : ((jsSplit v ',').filterMap (fun part =>
        if jsIsEmpty (jsTrim part) then none else some (jsTrim part)))
        = ((jsSplit v ',').map jsTrim).filter (fun s => !jsIsEmpty s) := by
      induction jsSplit v ',' with
      | nil => rfl
      | cons p ps ihp =>
        by_cases hp : jsIsEmpty (jsTrim p) <;>
          simp [List.filterMap_cons, List.filter_cons, hp, ihp]
    unfold normalizeProfilesStep
    by_cases hv : jsIsEmpty v
    · have hv2 : v = "" := by
        cases v with
        | mk d =>
          cases d with
          | nil => rfl
          | cons c cs => simp [jsIsEmpty] at hv
      subst hv2
      rw [if_pos hv]
      have hzero : (((jsSplit "" ',').map jsTrim).filter (fun s => !jsIsEmpty s)) = [] := rfl
      simp [normalizeProfilesSpec, hzero]
    · rw [if_neg hv, hpart]
      simp [normalizeProfilesSpec, List.append_assoc]

/-- `normalizeProfiles` computes exactly the specification-side
normalization: split on commas, trim, drop empties, keep duplicates. -/
theorem normalizeProfiles_eq_spec (values : List String) :
    normalizeProfiles values = normalizeProfilesSpec values := by
  unfold normalizeProfiles
  rw [normalizeProfiles_foldl]
  rfl

/-! ### Lemmas about binary resolution -/

theorem detectComposeBin_first (probe : String → Bool) (pre : List String)
    (b : String) (post : List String) (hpre : ∀ x ∈ pre, probe x = false)
    (hb : probe b = true) :
    detectComposeBin probe (pre ++ b :: post) = some b := by
  induction pre with
  | nil => simp [detectComposeBin, hb]
  | cons c cs ih =>
    have hc : probe c = false := hpre c (by simp)
    simp only [List.cons_append, detectComposeBin, hc]
    exact ih (fun x hx => hpre x (by simp [hx]))

theorem detectComposeBin_none (probe : String → Bool) (l : List String)
    (h : ∀ c ∈ l, probe c = false) :
    detectComposeBin probe l = none := by
  induction l with
  | nil => rfl
  | cons c cs ih =>
    have hc : probe c = false := h c (by simp)
    simp only [detectComposeBin, hc]
    exact ih (fun x hx => h x (by simp [hx]))

/-- `resolveComposeBin` scans exactly the selected candidate list. -/
theorem resolveComposeBin_eq_selected (probe : String → Bool)
    (userBins envBins : List String) :
    resolveComposeBin probe userBins envBins
      = match detectComposeBin probe (selectedBins userBins envBins) with
        | some b => .ok b
        | none => .error (selectedBins userBins envBins) := by
  unfold resolveComposeBin selectedBins
  by_cases hu : userBins.length > 0
  · simp [hu]
  · by_cases he : envBins.length > 0 <;> simp [hu, he]

/-! ### Lemmas about orchestration -/

theorem scopedHooksLoop_zero (stage : String) (o : Outcomes) (hooks : List String)
    (h : ∀ x ∈ hooks, o.hookCode stage (some x) = 0) :
    scopedHooksLoop stage o hooks
      = (hooks.map (fun x => Ev.hookRun stage (some x)), 0) := by
  induction hooks with
  | nil => rfl
  | cons x rest ih =>
    have hx : o.hookCode stage (some x) = 0 := h x (by simp)
    simp only [scopedHooksLoop, hx, ne_eq, not_true_eq_false, if_false,
      List.map_cons]
    rw [ih (fun y hy => h y (by simp [hy]))]

/-- A composite clean command whose pre-hooks succeed and whose first
delegate step fails stops right there: the trace ends at the failing step
and the step's code is the exit status. -/
theorem cleanCommandRun_step1_fail (step2Args hooks : List String) (o : Outcomes)
    (h0 : o.hookCode "pre" none = 0)
    (hpre : ∀ h ∈ hooks, o.hookCode "pre" (some h) = 0)
    (hc : o.composeCode ["rm", "-fsv"] ≠ 0) :
    cleanCommandRun step2Args hooks o
      = (Ev.hookRun "pre" none :: hooks.map (fun h => Ev.hookRun "pre" (some h))
          ++ [Ev.composeRun ["rm", "-fsv"]], o.composeCode ["rm", "-fsv"]) := by
  unfold cleanCommandRun
  rw [scopedHooksLoop_zero "pre" o hooks hpre]
  simp [h0, hc]

/-- A composite clean command whose pre-hooks and first delegate step
succeed but whose second delegate step fails stops right there. -/
theorem cleanCommandRun_step2_fail (step2Args hooks : List String) (o : Outcomes)
    (h0 : o.hookCode "pre" none = 0)
    (hpre : ∀ h ∈ hooks, o.hookCode "pre" (some h) = 0)
    (h1 : o.composeCode ["rm", "-fsv"] = 0)
    (hc : o.composeCode step2Args ≠ 0) :
    cleanCommandRun step2Args hooks o
      = (Ev.hookRun "pre" none :: hooks.map (fun h => Ev.hookRun "pre" (some h))
          ++ [Ev.composeRun ["rm", "-fsv"], Ev.composeRun step2Args],
         o.composeCode step2Args) := by
  unfold cleanCommandRun
  rw [scopedHooksLoop_zero "pre" o hooks hpre]
  simp [h0, h1, hc]

/-- No post-stage hook event occurs in a trace made of the global pre-hook
event, scoped pre-hook events and compose events. -/
theorem hookRun_post_not_mem_failTrace (hooks : List String) (c : Option String)
    (tail : List Ev) (htail : ∀ c2 : Option String, Ev.hookRun "post" c2 ∉ tail) :
    Ev.hookRun "post" c
      ∉ Ev.hookRun "pre" none :: hooks.map (fun h => Ev.hookRun "pre" (some h)) ++ tail := by
  intro hmem
  rcases List.mem_cons.mp hmem with h | hmem2
  · have : "post" = "pre" := by injection h
    exact absurd this (by decide)
  rcases List.mem_append.mp hmem2 with hmem3 | hmem4
  · obtain ⟨h, _, heq⟩ := List.mem_map.mp hmem3
    have : "pre" = "post" := by injection heq
    exact absurd this (by decide)
  · exact htail c hmem4

/-- A compose event with other extra arguments does not occur in the trace
of a run that stopped at its first delegate step. -/
theorem composeRun_not_mem_step1_trace (hooks : List String) (args : List String)
    (hne : args ≠ ["rm", "-fsv"]) :
    Ev.composeRun args
      ∉ Ev.hookRun "pre" none :: hooks.map (fun h => Ev.hookRun "pre" (some h))
          ++ [Ev.composeRun ["rm", "-fsv"]] := by
  intro hmem
  rcases List.mem_cons.mp hmem with h | hmem2
  · exact absurd h (by simp)
  rcases List.mem_append.mp hmem2 with hmem3 | hmem4
  · obtain ⟨h, _, heq⟩ := List.mem_map.mp hmem3
    exact absurd heq (by simp)
  · have := List.mem_singleton.mp hmem4
    have harg : args = ["rm", "-fsv"] := by injection this
    exact hne harg

/-! ### Claim theorems -/

/-- C2: for every configuration of existing base and profile dotenv files,
the merged effective environment maps each key to the value of the last file
in merge order (base, base.local, then per-profile non-local before .local,
all filtered by existence) that defines it; a key defined in no file keeps
the inherited process-environment value, and a key defined both in a file
and in the inherited environment takes the file value (`overlay` puts the
file layers over the inherited environment). -/
theorem c2_merged_env_last_file_wins (fs : FS) (cwd : String) (processEnv : Env)
    (dotenvPfx : String) (profileFromCli : List String) (k : String) :
    (detectDotenvFilesAndEnv fs cwd processEnv dotenvPfx profileFromCli false).mergedEnv k
      = overlay
          (lastFileValue fs.readF
            (detectDotenvFilesAndEnv fs cwd processEnv dotenvPfx profileFromCli false).envFiles k)
          (processEnv k)
    ∧ (detectDotenvFilesAndEnv fs cwd processEnv dotenvPfx profileFromCli false).envFiles
      = ([resolvePath cwd dotenvPfx, resolvePath cwd (dotenvPfx ++ ".local")]
          ++ (normalizeProfiles profileFromCli).flatMap (fun p =>
            [resolvePath cwd (dotenvPfx ++ "." ++ p),
             resolvePath cwd (dotenvPfx ++ "." ++ p ++ ".local")])).filter fs.existsF := by
  constructor
  · show (List.foldl (mergeEnv fs.readF) (List.foldl (mergeEnv fs.readF) processEnv _) _) k = _
    rw [← List.foldl_append, mergeEnv_foldl_apply]
    rfl
  · show _ ++ _ = _
    rw [List.filter_append]
    simp only [if_neg (by decide : ¬(false = true))]

/-- C10: on every invocation, all keys of the indexed-profile family
(`pfx ++ "PROFILE_..."`, other than the separate joined-list key) are first
cleared from both the process environment and the merged environment, and
then hold exactly the 1-based indexed writes for the current profile list:
any such key reads as the last indexed write for it, irrespective of what
either environment held before, and it is present after the call iff it is
one of the keys `PROFILE_1 .. PROFILE_n` of the n active profiles — stale
higher-indexed keys never survive, also when the new list is non-empty. -/
theorem c10_indexed_profile_keys (pfx : String) (st : ProcAndMerged)
    (profiles : List String) (k : String)
    (hk : strStartsWith k (pfx ++ "PROFILE_") = true)
    (hne : k ≠ pfx ++ "PROFILES") :
    (setProfileEnvVariables profiles st pfx).mergedEnv k
        = lookupLast (indexedProfileWrites (pfx ++ "PROFILE_") 0 profiles) k
      ∧ (setProfileEnvVariables profiles st pfx).procEnv k
        = lookupLast (indexedProfileWrites (pfx ++ "PROFILE_") 0 profiles) k
      ∧ (((setProfileEnvVariables profiles st pfx).mergedEnv k).isSome = true
          ↔ k ∈ (indexedProfileWrites (pfx ++ "PROFILE_") 0 profiles).map Prod.fst) := by
  obtain ⟨h1, h2⟩ := setProfileEnvVariables_indexed pfx st profiles k hk hne
  refine ⟨h1, h2, ?_⟩
  rw [h1]
  exact lookupLast_isSome_iff _ _

/-- C10 witness: with one active profile `dev`, a stale key
`CMPCAT_PROFILE_3` left by a previous three-profile run is gone from the
merged environment even though the new profile list is non-empty. -/
theorem c10_witness :
    (setProfileEnvVariables ["dev"]
        ⟨fun _ => none, fun k => if k = "CMPCAT_PROFILE_3" then some "stale" else none⟩
        "CMPCAT_").mergedEnv "CMPCAT_PROFILE_3"
        = lookupLast (indexedProfileWrites ("CMPCAT_" ++ "PROFILE_") 0 ["dev"]) "CMPCAT_PROFILE_3"
      ∧ (setProfileEnvVariables ["dev"]
          ⟨fun _ => none, fun k => if k = "CMPCAT_PROFILE_3" then some "stale" else none⟩
          "CMPCAT_").procEnv "CMPCAT_PROFILE_3"
        = lookupLast (indexedProfileWrites ("CMPCAT_" ++ "PROFILE_") 0 ["dev"]) "CMPCAT_PROFILE_3"
      ∧ (((setProfileEnvVariables ["dev"]
          ⟨fun _ => none, fun k => if k = "CMPCAT_PROFILE_3" then some "stale" else none⟩
          "CMPCAT_").mergedEnv "CMPCAT_PROFILE_3").isSome = true
          ↔ "CMPCAT_PROFILE_3"
            ∈ (indexedProfileWrites ("CMPCAT_" ++ "PROFILE_") 0 ["dev"]).map Prod.fst) :=
  c10_indexed_profile_keys "CMPCAT_"
    ⟨fun _ => none, fun k => if k = "CMPCAT_PROFILE_3" then some "stale" else none⟩
    ["dev"] "CMPCAT_PROFILE_3" (by decide) (by decide)

/-- C7 counterexample: the claim says duplicates are deduplicated and the
derived keys reflect only deduplicated entries; on the code a duplicated
profile list stays duplicated, the indexed key `PROFILE_2` is written with
the duplicate, and the joined key repeats it. -/
theorem c7_counterexample :
    normalizeProfiles ["dev", "dev"] = ["dev", "dev"]
      ∧ normalizeProfiles ["dev", "dev"] ≠ ["dev"]
      ∧ (setProfileEnvVariables (normalizeProfiles ["dev", "dev"])
          ⟨fun _ => none, fun _ => none⟩ "CMPCAT_").mergedEnv "CMPCAT_PROFILE_2" = some "dev"
      ∧ (setProfileEnvVariables (normalizeProfiles ["dev", "dev"])
          ⟨fun _ => none, fun _ => none⟩ "CMPCAT_").mergedEnv "CMPCAT_PROFILES" = some "dev,dev" :=
  ⟨by decide, by decide, by decide, by decide⟩

/-- C7 (amended): caller-supplied profile values are split on commas,
trimmed, and entries empty after trimming are dropped silently, but
duplicates are NOT deduplicated — the active list keeps every occurrence in
first-to-last order, the joined-profile-list key holds every entry
(duplicates included) comma-joined, and each key of the indexed family reads
as the corresponding 1-based indexed write over the full, non-deduplicated
list. -/
theorem c7_amended_profiles_keep_duplicates (values : List String)
    (st : ProcAndMerged) (pfx : String)
    (hnz : normalizeProfiles values ≠ []) :
    normalizeProfiles values = normalizeProfilesSpec values
      ∧ (setProfileEnvVariables (normalizeProfiles values) st pfx).mergedEnv (pfx ++ "PROFILES")
          = some (String.intercalate "," (normalizeProfiles values))
      ∧ ∀ k : String, strStartsWith k (pfx ++ "PROFILE_") = true → k ≠ pfx ++ "PROFILES" →
          (setProfileEnvVariables (normalizeProfiles values) st pfx).mergedEnv k
            = lookupLast
                (indexedProfileWrites (pfx ++ "PROFILE_") 0 (normalizeProfiles values)) k := by
  refine ⟨normalizeProfiles_eq_spec values,
    setProfileEnvVariables_profilesKey pfx st _ hnz, ?_⟩
  intro k hk hne
  exact (setProfileEnvVariables_indexed pfx st _ k hk hne).1

/-- C7 witness: the duplicated input `"dev,dev"` keeps both occurrences, the
joined key holds `dev,dev`, and the indexed key `PROFILE_2` reads as the
second (duplicate) indexed write. -/
theorem c7_witness :
    normalizeProfiles ["dev,dev"] = normalizeProfilesSpec ["dev,dev"]
      ∧ (setProfileEnvVariables (normalizeProfiles ["dev,dev"])
          ⟨fun _ => none, fun _ => none⟩ "CMPCAT_").mergedEnv ("CMPCAT_" ++ "PROFILES")
          = some (String.intercalate "," (normalizeProfiles ["dev,dev"]))
      ∧ (setProfileEnvVariables (normalizeProfiles ["dev,dev"])
          ⟨fun _ => none, fun _ => none⟩ "CMPCAT_").mergedEnv "CMPCAT_PROFILE_2"
          = lookupLast
              (indexedProfileWrites ("CMPCAT_" ++ "PROFILE_") 0 (normalizeProfiles ["dev,dev"]))
              "CMPCAT_PROFILE_2" := by
  obtain ⟨h1, h2, h3⟩ := c7_amended_profiles_keep_duplicates ["dev,dev"]
    ⟨fun _ => none, fun _ => none⟩ "CMPCAT_" (by decide)
  exact ⟨h1, h2, h3 "CMPCAT_PROFILE_2" (by decide) (by decide)⟩

/-- C4: binary resolution scans exactly one list — the user-supplied
`--cmp-bin` list when non-empty, else the environment-declared
`CMPCAT_COMPOSE_BIN` list (comma-split) when non-empty, else the built-in
defaults — and selects the first candidate whose probe succeeds; being a
pure function of the probe outcomes it is deterministic; when no candidate
of the selected list succeeds, resolution reports that list and status 1,
and the command's action performs no hook or delegate event and exits 1. -/
theorem c4_binary_resolution (probe : String → Bool) (userBins : List String)
    (envBinValue : Option String) :
    (∀ pre b post,
        selectedBins userBins (parseCsv envBinValue) = pre ++ b :: post →
        (∀ x ∈ pre, probe x = false) → probe b = true →
        resolveComposeBin probe userBins (parseCsv envBinValue) = Except.ok b)
      ∧ ((∀ c ∈ selectedBins userBins (parseCsv envBinValue), probe c = false) →
          resolveComposeBin probe userBins (parseCsv envBinValue)
              = Except.error (selectedBins userBins (parseCsv envBinValue))
            ∧ ∀ hooks o, simpleAction probe userBins envBinValue hooks o = ([], 1)
              ∧ cmpCleanAction probe userBins envBinValue hooks o = ([], 1)) := by
  constructor
  · intro pre b post hsel hpre hb
    rw [resolveComposeBin_eq_selected, hsel,
      detectComposeBin_first probe pre b post hpre hb]
  · intro hall
    have herr : resolveComposeBin probe userBins (parseCsv envBinValue)
        = Except.error (selectedBins userBins (parseCsv envBinValue)) := by
      rw [resolveComposeBin_eq_selected, detectComposeBin_none probe _ hall]
    refine ⟨herr, fun hooks o => ⟨?_, ?_⟩⟩
    · unfold simpleAction
      rw [herr]
    · unfold cmpCleanAction
      rw [herr]

/-- C4 witness: with a probe accepting only `docker-compose`, the user list
`[nope, docker-compose]` wins over a non-empty environment list and resolves
to its first succeeding candidate; with an all-failing probe and no user or
environment candidates, the default list is exhausted and the action exits 1
with an empty event trace. -/
theorem c4_witness :
    resolveComposeBin (fun s => s == "docker-compose") ["nope", "docker-compose"]
        (parseCsv (some "x,y")) = Except.ok "docker-compose"
      ∧ simpleAction (fun _ => false) [] (some "") []
          ⟨fun _ _ => 0, fun _ => 0⟩ = ([], 1) := by
  constructor
  · exact (c4_binary_resolution (fun s => s == "docker-compose")
      ["nope", "docker-compose"] (some "x,y")).1 ["nope"] "docker-compose" []
      (by decide) (by decide) (by decide)
  · exact (((c4_binary_resolution (fun _ => false) [] (some "")).2
      (by intro c _; rfl)).2 [] ⟨fun _ _ => 0, fun _ => 0⟩).1

/-- C5 (code evaluated at the failing input): hook discovery with requested
stage `pre` and command-scope `up` returns the file `cmp.pre.down.sh` whose
command-scope segment is `down`, alongside `cmp.pre.up.sh`, in scan order —
the command-scope segment of a scoped hook file name is captured but never
compared against the requested name, contradicting the documented behaviour
that only `cmp.pre.up.*` files run for `--cmp-hook up`. -/
theorem c5_hook_scope_not_checked :
    discoverHooks "linux" "/w" ["cmp.pre.down.sh", "cmp.pre.up.sh"] "pre" (some "up")
      = [{ kindIsCommand := true, additionalHookName := some "up", stage := "pre",
           platform := "linux", binary := none, ext := "sh", file := "/w/cmp.pre.down.sh" },
         { kindIsCommand := true, additionalHookName := some "up", stage := "pre",
           platform := "linux", binary := none, ext := "sh", file := "/w/cmp.pre.up.sh" }] := by
  decide

/-- C6 (code evaluated at the failing input): even with the derived
project-name key present in the merged environment, the final argument
vector is exactly profile flags, env-file flags and the passthrough
arguments — no project-name flag is ever emitted. -/
theorem c6_no_project_name_flag :
    buildComposeArgs ["/w/.env"]
        (fun k => if k = "CMPCAT_PROJECT_NAME" then some "demo" else none)
        ["dev"] ["up", "-d"]
      = ["--profile", "dev", "--env-file", "/w/.env", "up", "-d"]
    ∧ "--project-name" ∉ buildComposeArgs ["/w/.env"]
        (fun k => if k = "CMPCAT_PROJECT_NAME" then some "demo" else none)
        ["dev"] ["up", "-d"]
    ∧ "-p" ∉ buildComposeArgs ["/w/.env"]
        (fun k => if k = "CMPCAT_PROJECT_NAME" then some "demo" else none)
        ["dev"] ["up", "-d"] :=
  ⟨by decide, by decide, by decide⟩

/-- C8 (code evaluated at the failing input): with every delegate step and
hook succeeding, each composite clean command performs exactly its pre-hook
pass, its two compose steps and its post-hook pass and exits 0 — no
store-directory deletion event occurs anywhere in the trace, although the
repository README documents `rm -rf` of the store directory as the final
step of every clean command. -/
theorem c8_no_store_delete :
    (cmpCleanRun [] ⟨fun _ _ => 0, fun _ => 0⟩).1
        = [Ev.hookRun "pre" none, Ev.composeRun ["rm", "-fsv"],
           Ev.composeRun ["down", "--volumes"], Ev.hookRun "post" none]
      ∧ (cmpCleanRun [] ⟨fun _ _ => 0, fun _ => 0⟩).2 = 0
      ∧ Ev.storeDelete ∉ (cmpCleanRun [] ⟨fun _ _ => 0, fun _ => 0⟩).1
      ∧ Ev.storeDelete ∉ (cmpCleanILocalRun [] ⟨fun _ _ => 0, fun _ => 0⟩).1
      ∧ Ev.storeDelete ∉ (cmpCleanIAllRun [] ⟨fun _ _ => 0, fun _ => 0⟩).1 :=
  ⟨by decide, by decide, by decide, by decide, by decide⟩

/-- C9 (code evaluated at the failing input): starting from a fresh process
(no module-level overrides, no environment override), an invocation carrying
`--cmp-dotenv-prefix custom.env` still performs dotenv detection with the
default root `.env` — the option value is stored into the module state only
after detection has run — so a file `custom.env` present in the working
directory is not detected in that same invocation. -/
theorem c9_dotenv_option_ignored_by_detection :
    (prepareDotenvFlow ⟨none, none⟩ none none (some "custom.env")).rootUsedForDetection = ".env"
      ∧ getDotenvPrefixOf
          (prepareDotenvFlow ⟨none, none⟩ none none (some "custom.env")).stateAfter none
          = "custom.env"
      ∧ (detectDotenvFilesAndEnv ⟨fun f => f == "/w/custom.env", fun _ => none⟩ "/w"
          (fun _ => none)
          (prepareDotenvFlow ⟨none, none⟩ none none (some "custom.env")).rootUsedForDetection
          [] false).envFiles = [] :=
  ⟨by decide, by decide, by decide⟩

/-- C1 counterexample: in `cmp-clean` (and the other composite clean
commands), when the first delegate step exits 2 the process exits 2 without
the global post-hook pass having run — contradicting the claim that global
post-hooks still execute before the exit. -/
theorem c1_counterexample :
    (cmpCleanRun []
        ⟨fun _ _ => 0, fun extra => if extra = ["rm", "-fsv"] then 2 else 0⟩).2 = 2
      ∧ Ev.hookRun "post" none ∉ (cmpCleanRun []
          ⟨fun _ _ => 0, fun extra => if extra = ["rm", "-fsv"] then 2 else 0⟩).1
      ∧ Ev.composeRun ["down", "--volumes"] ∉ (cmpCleanRun []
          ⟨fun _ _ => 0, fun extra => if extra = ["rm", "-fsv"] then 2 else 0⟩).1
      ∧ Ev.hookRun "post" none ∉ (cmpCleanILocalRun []
          ⟨fun _ _ => 0, fun extra => if extra = ["rm", "-fsv"] then 2 else 0⟩).1
      ∧ Ev.hookRun "post" none ∉ (cmpCleanIAllRun []
          ⟨fun _ _ => 0, fun extra => if extra = ["rm", "-fsv"] then 2 else 0⟩).1 :=
  ⟨by decide, by decide, by decide, by decide, by decide⟩

/-- C1 (amended): for every composite clean command (cmp-clean,
cmp-clean-i-local, cmp-clean-i-all), if a delegate step exits nonzero the
remaining delegate steps do not run and the process exits immediately with
that nonzero status; no post-hook — scoped or global — runs after the
failing step (post-hooks run only when every delegate step succeeded). -/
theorem c1_amended_composite_fail_skips_post_hooks (hooks : List String) (o : Outcomes)
    (h0 : o.hookCode "pre" none = 0)
    (hpre : ∀ h ∈ hooks, o.hookCode "pre" (some h) = 0) :
    (o.composeCode ["rm", "-fsv"] ≠ 0 →
        (cmpCleanRun hooks o).2 = o.composeCode ["rm", "-fsv"]
        ∧ (∀ c, Ev.hookRun "post" c ∉ (cmpCleanRun hooks o).1)
        ∧ Ev.composeRun ["down", "--volumes"] ∉ (cmpCleanRun hooks o).1
        ∧ (cmpCleanILocalRun hooks o).2 = o.composeCode ["rm", "-fsv"]
        ∧ (∀ c, Ev.hookRun "post" c ∉ (cmpCleanILocalRun hooks o).1)
        ∧ Ev.composeRun ["down", "--rmi", "local", "--volumes"]
            ∉ (cmpCleanILocalRun hooks o).1
        ∧ (cmpCleanIAllRun hooks o).2 = o.composeCode ["rm", "-fsv"]
        ∧ (∀ c, Ev.hookRun "post" c ∉ (cmpCleanIAllRun hooks o).1)
        ∧ Ev.composeRun ["down", "--rmi", "all", "--volumes"]
            ∉ (cmpCleanIAllRun hooks o).1)
    ∧ (o.composeCode ["rm", "-fsv"] = 0 →
        (o.composeCode ["down", "--volumes"] ≠ 0 →
          (cmpCleanRun hooks o).2 = o.composeCode ["down", "--volumes"]
          ∧ ∀ c, Ev.hookRun "post" c ∉ (cmpCleanRun hooks o).1)
        ∧ (o.composeCode ["down", "--rmi", "local", "--volumes"] ≠ 0 →
          (cmpCleanILocalRun hooks o).2
              = o.composeCode ["down", "--rmi", "local", "--volumes"]
          ∧ ∀ c, Ev.hookRun "post" c ∉ (cmpCleanILocalRun hooks o).1)
        ∧ (o.composeCode ["down", "--rmi", "all", "--volumes"] ≠ 0 →
          (cmpCleanIAllRun hooks o).2
              = o.composeCode ["down", "--rmi", "all", "--volumes"]
          ∧ ∀ c, Ev.hookRun "post" c ∉ (cmpCleanIAllRun hooks o).1)) := by
  constructor
  · intro hc
    have e1 := cleanCommandRun_step1_fail ["down", "--volumes"] hooks o h0 hpre hc
    have e2 := cleanCommandRun_step1_fail ["down", "--rmi", "local", "--volumes"]
      hooks o h0 hpre hc
    have e3 := cleanCommandRun_step1_fail ["down", "--rmi", "all", "--volumes"]
      hooks o h0 hpre hc
    unfold cmpCleanRun cmpCleanILocalRun cmpCleanIAllRun
    rw [e1, e2, e3]
    refine ⟨rfl,
      fun c => hookRun_post_not_mem_failTrace hooks c _ (by simp),
      composeRun_not_mem_step1_trace hooks _ (by decide),
      rfl,
      fun c => hookRun_post_not_mem_failTrace hooks c _ (by simp),
      composeRun_not_mem_step1_trace hooks _ (by decide),
      rfl,
      fun c => hookRun_post_not_mem_failTrace hooks c _ (by simp),
      composeRun_not_mem_step1_trace hooks _ (by decide)⟩
  · intro h1
    refine ⟨fun hc2 => ?_, fun hc2 => ?_, fun hc2 => ?_⟩
    · have e := cleanCommandRun_step2_fail ["down", "--volumes"] hooks o h0 hpre h1 hc2
      unfold cmpCleanRun
      rw [e]
      exact ⟨rfl, fun c => hookRun_post_not_mem_failTrace hooks c _ (by simp)⟩
    · have e := cleanCommandRun_step2_fail ["down", "--rmi", "local", "--volumes"]
        hooks o h0 hpre h1 hc2
      unfold cmpCleanILocalRun
      rw [e]
      exact ⟨rfl, fun c => hookRun_post_not_mem_failTrace hooks c _ (by simp)⟩
    · have e := cleanCommandRun_step2_fail ["down", "--rmi", "all", "--volumes"]
        hooks o h0 hpre h1 hc2
      unfold cmpCleanIAllRun
      rw [e]
      exact ⟨rfl, fun c => hookRun_post_not_mem_failTrace hooks c _ (by simp)⟩

/-- C1 witness: with one scoped hook name, all pre-hooks succeeding and the
first delegate step failing with 2, `cmp-clean` exits with the step's code,
runs no global post-hooks and never reaches the second delegate step. -/
theorem c1_witness :
    (cmpCleanRun ["w"]
        ⟨fun _ _ => 0, fun extra => if extra = ["rm", "-fsv"] then 2 else 0⟩).2
        = Outcomes.composeCode
            ⟨fun _ _ => 0, fun extra => if extra = ["rm", "-fsv"] then 2 else 0⟩
            ["rm", "-fsv"]
      ∧ Ev.hookRun "post" none ∉ (cmpCleanRun ["w"]
          ⟨fun _ _ => 0, fun extra => if extra = ["rm", "-fsv"] then 2 else 0⟩).1
      ∧ Ev.composeRun ["down", "--volumes"] ∉ (cmpCleanRun ["w"]
          ⟨fun _ _ => 0, fun extra => if extra = ["rm", "-fsv"] then 2 else 0⟩).1 := by
  have h := (c1_amended_composite_fail_skips_post_hooks ["w"]
    ⟨fun _ _ => 0, fun extra => if extra = ["rm", "-fsv"] then 2 else 0⟩
    rfl (by decide)).1 (by decide)
  exact ⟨h.1, h.2.1 none, h.2.2.1⟩

/-- C3 counterexample: in the simple command with the delegate exiting 2 and
the global post-hook pass exiting 3, the final status is 3, not the
delegate's 2 — contradicting the claim that the delegate result takes
precedence. -/
theorem c3_counterexample :
    (simpleCommandRun []
        ⟨fun st _ => if st = "post" then 3 else 0, fun _ => 2⟩).2 = 3
      ∧ Outcomes.composeCode
          ⟨fun st _ => if st = "post" then 3 else 0, fun _ => 2⟩ [] = 2
      ∧ Outcomes.hookCode
          ⟨fun st _ => if st = "post" then 3 else 0, fun _ => 2⟩ "post" none = 3
      ∧ (simpleCommandRun []
          ⟨fun st _ => if st = "post" then 3 else 0, fun _ => 2⟩).2
        ≠ Outcomes.composeCode
            ⟨fun st _ => if st = "post" then 3 else 0, fun _ => 2⟩ [] :=
  ⟨by decide, by decide, by decide, by decide⟩

/-- C3 (amended): for the simple (default) command, with pre-hooks and
scoped post-hooks succeeding, the final exit status is the global
post-hook's status when it is nonzero and the delegate's status otherwise:
when both are nonzero, the post-hook result takes precedence over the
delegate result. -/
theorem c3_amended_post_hook_status_wins (hooks : List String) (o : Outcomes)
    (h0 : o.hookCode "pre" none = 0)
    (hpre : ∀ h ∈ hooks, o.hookCode "pre" (some h) = 0)
    (hpost : ∀ h ∈ hooks, o.hookCode "post" (some h) = 0) :
    (simpleCommandRun hooks o).2
      = if o.hookCode "post" none ≠ 0 then o.hookCode "post" none
        else o.composeCode [] := by
  unfold simpleCommandRun
  rw [scopedHooksLoop_zero "pre" o hooks hpre, scopedHooksLoop_zero "post" o hooks hpost]
  simp [h0]

/-- C3 witness: with one scoped hook whose pre and post hooks succeed, a
delegate exiting 2 and a global post-hook exiting 3, the simple command's
final status is the post-hook's 3. -/
theorem c3_witness :
    (simpleCommandRun ["x"]
        ⟨fun st c => if st = "post" then (if c = none then 3 else 0) else 0,
         fun _ => 2⟩).2
      = if Outcomes.hookCode
            ⟨fun st c => if st = "post" then (if c = none then 3 else 0) else 0,
             fun _ => 2⟩ "post" none ≠ 0
        then Outcomes.hookCode
            ⟨fun st c => if st = "post" then (if c = none then 3 else 0) else 0,
             fun _ => 2⟩ "post" none
        else Outcomes.composeCode
            ⟨fun st c => if st = "post" then (if c = none then 3 else 0) else 0,
             fun _ => 2⟩ [] :=
  c3_amended_post_hook_status_wins ["x"]
    ⟨fun st c => if st = "post" then (if c = none then 3 else 0) else 0, fun _ => 2⟩
    rfl (by decide) (by decide)

end ComposeCat
